import Mathlib

/-!
Verification of the SGA `ReadCluster` cluster-construction engine
(`src/Algorithm/ReadCluster.cpp`): seeding, bounded breadth-first expansion
with visited-set duplicate suppression, all-or-nothing size-bound abort, and
output normalization (sort + adjacent dedup).

The FM-index machinery (`OverlapAlgorithm`, `BWTAlgorithms`) is external to
the engine; following the spec's interface description it is embedded as an
abstract `OverlapOracle` record of pure query functions.  All container state
(`std::queue`, `std::set<int64_t>`, `std::vector`) is embedded as Lean lists
with FIFO discipline and membership-based set operations.
-/

namespace ReadClusterModel

/-- A BWT interval `[lower, upper]` over index positions (C++ `BWTInterval`
with `int64_t` bounds). -/
structure BWTInterval where
  lower : Int
  upper : Int
  deriving DecidableEq, Repr

/-- Modelled from the spec: `BWTInterval::isValid` is declared in the
FM-index headers absent from the sources; the spec states that
`lower > upper` denotes an empty/invalid interval. -/
def BWTInterval.isValid (i : BWTInterval) : Bool :=
  i.lower ≤ i.upper

/-- One read admitted into (or pending for) the cluster: its sequence, its
canonical identity interval and its orientation flag (C++ `ClusterNode`). -/
structure ClusterNode where
  sequence : String
  interval : BWTInterval
  isReverseInterval : Bool
  deriving DecidableEq, Repr

/-- Modelled from the spec: `ClusterNode::compare` is declared in
`ReadCluster.h`, absent from the sources; the spec states nodes are ordered
solely by identity interval, lower bound primary, upper bound secondary. -/
def ClusterNode.compare (a b : ClusterNode) : Bool :=
  a.interval.lower < b.interval.lower ∨
    (a.interval.lower = b.interval.lower ∧ a.interval.upper < b.interval.upper)

/-- Modelled from the spec: `ClusterNode::equal` is declared in
`ReadCluster.h`, absent from the sources; the spec states two nodes are
duplicates exactly when their identity intervals coincide. -/
def ClusterNode.equal (a b : ClusterNode) : Bool :=
  a.interval.lower = b.interval.lower ∧ a.interval.upper = b.interval.upper

/-- One overlap hit reported for a node (C++ `OverlapBlock`): the neighbor's
canonical identity interval, the reconstruction rule `getFullString` that
rebuilds the neighbor's sequence from the current node's sequence, and the
reverse-orientation flag `flags.isTargetRev()`. -/
structure OverlapHit where
  canonicalInterval : BWTInterval
  fullString : String → String
  isTargetRev : Bool

/-- The injected read-only collaborator (C++ `OverlapAlgorithm` plus the
`BWTAlgorithms` helpers it is used through): substring/containment check
(`alignReadDuplicate(...).isSubstring`), terminator-narrowed exact-match
identity interval (`findInterval` followed by `updateInterval '$'`), and the
overlap query (`overlapRead` at a minimum overlap threshold). -/
structure OverlapOracle where
  isSubstring : String → Bool
  findIntervalDollar : String → BWTInterval
  overlaps : String → Int → List OverlapHit

/-- The mutable state of one `ReadCluster` builder: the visited-identity set
`m_usedIndex` (a `std::set<int64_t>`, embedded as a list queried by
membership), the FIFO pending queue `m_queue` (front = head, push = append)
and the accumulated output `m_outCluster`. -/
structure ReadCluster where
  usedIndex : List Int
  queue : List ClusterNode
  outCluster : List ClusterNode
  deriving DecidableEq, Repr

/-- The freshly constructed builder: all containers empty. -/
def ReadCluster.init : ReadCluster :=
  { usedIndex := [], queue := [], outCluster := [] }

/-- `std::set<int64_t>::insert`: adds the key unless already present. -/
def insertKey (k : Int) (s : List Int) : List Int :=
  if k ∈ s then s else s ++ [k]

/-- Outcome of `addSeed`: either a normal return of the node (with the
builder state it leaves behind), or the `exit(code)` call the C++ source
performs on a fatal seeding condition. -/
inductive SeedResult where
  | ok (st : ReadCluster) (node : ClusterNode)
  | procExit (code : Nat)
  deriving DecidableEq, Repr

/-- `ReadCluster::addSeed(sequence, bCheckInIndex)`: substring check first
(fatal `exit(1)` when `bCheckInIndex`, otherwise a sentinel node with
interval `[0, -1]` and no state change); then the terminator-narrowed
interval lookup, fatal `exit(EXIT_FAILURE)` when `bCheckInIndex` and the
interval is invalid; otherwise register the key as visited, enqueue the
node and return it. -/
def addSeed (o : OverlapOracle) (st : ReadCluster) (sequence : String)
    (bCheckInIndex : Bool) : SeedResult :=
  if o.isSubstring sequence then
    if bCheckInIndex then
      .procExit 1
    else
      .ok st { sequence := "", interval := ⟨0, -1⟩, isReverseInterval := false }
  else
    let readInterval := o.findIntervalDollar sequence
    if bCheckInIndex ∧ ¬ readInterval.isValid then
      .procExit 1
    else
      let node : ClusterNode :=
        { sequence := sequence, interval := readInterval,
          isReverseInterval := false }
      .ok { st with usedIndex := insertKey readInterval.lower st.usedIndex,
                    queue := st.queue ++ [node] } node

/-- The inner loop of `ReadCluster::run` over one block list: for each hit,
if its canonical key (`getCanonicalInterval().lower`) is already in
`m_usedIndex` the hit is discarded; otherwise the key is inserted and a new
node (reconstructed sequence, canonical interval, target orientation) is
pushed onto the queue. -/
def expandBlocks (hits : List OverlapHit) (curSeq : String)
    (used : List Int) (queue : List ClusterNode) : List Int × List ClusterNode :=
  match hits with
  | [] => (used, queue)
  | hit :: rest =>
    let canonicalIndex := hit.canonicalInterval.lower
    if canonicalIndex ∈ used then
      expandBlocks rest curSeq used queue
    else
      let newNode : ClusterNode :=
        { sequence := hit.fullString curSeq,
          interval := hit.canonicalInterval,
          isReverseInterval := hit.isTargetRev }
      expandBlocks rest curSeq (insertKey canonicalIndex used) (queue ++ [newNode])

/-- `ReadCluster::run(max)`: while the queue is non-empty, first the bound
check (`m_queue.size() + m_outCluster.size() > max` empties both the queue
and the output and returns), then dequeue the front node, append it to the
output, query the oracle for its overlaps and expand.  Terminates because
each surviving iteration grows the output, which the bound check caps. -/
def runLoop (o : OverlapOracle) (minOverlap : Int) (max : Nat)
    (st : ReadCluster) : ReadCluster :=
  match hq : st.queue with
  | [] => st
  | node :: rest =>
    if st.queue.length + st.outCluster.length > max then
      { st with queue := [], outCluster := [] }
    else
      let expanded := expandBlocks (o.overlaps node.sequence minOverlap)
        node.sequence st.usedIndex rest
      runLoop o minOverlap max
        { usedIndex := expanded.1, queue := expanded.2,
          outCluster := st.outCluster ++ [node] }
  termination_by max + 1 - st.outCluster.length
  decreasing_by
    simp only [List.length_append, List.length_cons]
    have hlen : st.queue.length = rest.length + 1 := by rw [hq]; simp
    omega

/-- The non-strict ordering induced by `ClusterNode::compare`, under which
`std::sort` leaves the vector pairwise ordered: `a` may precede `b` exactly
when `compare b a` is false. -/
def nodeLe (a b : ClusterNode) : Prop :=
  ClusterNode.compare b a = false

instance : DecidableRel nodeLe := fun a b => by
  unfold nodeLe; infer_instance

instance : IsTotal ClusterNode nodeLe where
  total a b := by
    simp only [nodeLe, ClusterNode.compare, decide_eq_false_iff_not]
    by_cases h : b.interval.lower < a.interval.lower ∨
        (b.interval.lower = a.interval.lower ∧ b.interval.upper < a.interval.upper)
    · right; omega
    · left; exact h

instance : IsTrans ClusterNode nodeLe where
  trans a b c hab hbc := by
    simp only [nodeLe, ClusterNode.compare, decide_eq_false_iff_not] at *
    omega

/-- `std::unique` with `ClusterNode::equal`: drops each element equal to the
last element kept, so that no two consecutive survivors are equal. -/
def dedupAdjacent : List ClusterNode → List ClusterNode
  | [] => []
  | [a] => [a]
  | a :: b :: rest =>
    if ClusterNode.equal a b then dedupAdjacent (a :: rest)
    else a :: dedupAdjacent (b :: rest)
  termination_by l => l.length

/-- `ReadCluster::getOutput`: copy `m_outCluster`, sort with
`ClusterNode::compare` (the sort is embedded as insertion sort; only the
sortedness and permutation properties of `std::sort` are relied upon), then
erase the consecutive duplicates found by `std::unique` with
`ClusterNode::equal`. -/
def getOutput (st : ReadCluster) : List ClusterNode :=
  dedupAdjacent (List.insertionSort nodeLe st.outCluster)

/-- One external call the driver can make on the builder. -/
inductive Op where
  | seed (sequence : String) (bCheckInIndex : Bool)
  | run (max : Nat)

/-- Executes a sequence of driver calls; `none` means the process was
terminated by a fatal seeding condition. -/
def execOps (o : OverlapOracle) (minOverlap : Int) :
    List Op → ReadCluster → Option ReadCluster
  | [], st => some st
  | .seed s b :: ops, st =>
    match addSeed o st s b with
    | .ok st' _ => execOps o minOverlap ops st'
    | .procExit _ => none
  | .run mx :: ops, st => execOps o minOverlap ops (runLoop o minOverlap mx st)

/-- Whether a driver call is a seeding call. -/
def Op.isSeed : Op → Bool
  | .seed _ _ => true
  | .run _ => false

/-- A driver call made with `requireIndexed` set on every seed. -/
def Op.seedChecked : Op → Bool
  | .seed _ b => b
  | .run _ => true

/-- A concrete oracle with one indexed, non-substring read at identity
interval `[4, 4]` and no overlaps; used to exercise the seeding path. -/
def seedOracle : OverlapOracle :=
  { isSubstring := fun _ => false,
    findIntervalDollar := fun _ => ⟨4, 4⟩,
    overlaps := fun _ _ => [] }

/-- A concrete oracle reporting every sequence as a substring of some
indexed read. -/
def substringOracle : OverlapOracle :=
  { isSubstring := fun _ => true,
    findIntervalDollar := fun _ => ⟨0, -1⟩,
    overlaps := fun _ _ => [] }

/-- A concrete oracle reporting no substring containment but an empty
(invalid) terminator-narrowed interval — the sequence is absent from the
index. -/
def absentOracle : OverlapOracle :=
  { isSubstring := fun _ => false,
    findIntervalDollar := fun _ => ⟨5, 2⟩,
    overlaps := fun _ _ => [] }

/-- The overlap hit of the spec's worked example: neighbor at canonical
interval `[7, 7]`, reconstructing by appending `TT`, forward orientation. -/
def hitSeven : OverlapHit :=
  { canonicalInterval := ⟨7, 7⟩,
    fullString := fun s => s ++ "TT",
    isTargetRev := false }

/-- The oracle of the spec's worked example: the seed is indexed at
identity interval `[4, 4]` and every node reports the single hit
`hitSeven`. -/
def exampleOracle : OverlapOracle :=
  { isSubstring := fun _ => false,
    findIntervalDollar := fun _ => ⟨4, 4⟩,
    overlaps := fun _ _ => [hitSeven] }

/-! ### Basic lemmas: key set, node ordering, adjacent deduplication -/

lemma mem_insertKey {x k : Int} {s : List Int} :
    x ∈ insertKey k s ↔ x = k ∨ x ∈ s := by
  unfold insertKey
  by_cases h : k ∈ s
  · rw [if_pos h]
    exact ⟨Or.inr, fun hx => hx.elim (fun hxk => hxk ▸ h) id⟩
  · rw [if_neg h]
    simp [List.mem_append, or_comm]

lemma mem_insertKey_self (k : Int) (s : List Int) : k ∈ insertKey k s :=
  mem_insertKey.mpr (Or.inl rfl)

lemma mem_insertKey_of_mem {x k : Int} {s : List Int} (h : x ∈ s) :
    x ∈ insertKey k s :=
  mem_insertKey.mpr (Or.inr h)

lemma compare_of_not_compare_of_not_equal {a b : ClusterNode}
    (h1 : ClusterNode.compare b a = false) (h2 : ClusterNode.equal a b = false) :
    ClusterNode.compare a b = true := by
  simp only [ClusterNode.compare, ClusterNode.equal, decide_eq_false_iff_not,
    decide_eq_true_eq, not_or, not_and, not_lt] at *
  omega

lemma compare_of_compare_of_not_compare {a b c : ClusterNode}
    (h1 : ClusterNode.compare a b = true) (h2 : ClusterNode.compare c b = false) :
    ClusterNode.compare a c = true := by
  simp only [ClusterNode.compare, decide_eq_false_iff_not, decide_eq_true_eq,
    not_or, not_and, not_lt] at *
  omega

lemma equal_false_of_compare {a b : ClusterNode}
    (h : ClusterNode.compare a b = true) : ClusterNode.equal a b = false := by
  simp only [ClusterNode.compare, ClusterNode.equal, decide_eq_false_iff_not,
    decide_eq_true_eq, not_and] at *
  omega

lemma dedupAdjacent_subset : ∀ l : List ClusterNode, dedupAdjacent l ⊆ l := by
  intro l
  induction l using dedupAdjacent.induct with
  | case1 => simp [dedupAdjacent]
  | case2 a => simp [dedupAdjacent]
  | case3 a b rest heq ih =>
    rw [dedupAdjacent, if_pos heq]
    intro x hx
    rcases List.mem_cons.mp (ih hx) with rfl | h
    · exact List.mem_cons_self _ _
    · exact List.mem_cons_of_mem _ (List.mem_cons_of_mem _ h)
  | case4 a b rest heq ih =>
    rw [dedupAdjacent, if_neg heq]
    intro x hx
    rcases List.mem_cons.mp hx with rfl | h
    · exact List.mem_cons_self _ _
    · exact List.mem_cons_of_mem _ (ih h)

lemma dedupAdjacent_length_le : ∀ l : List ClusterNode,
    (dedupAdjacent l).length ≤ l.length := by
  intro l
  induction l using dedupAdjacent.induct with
  | case1 => simp [dedupAdjacent]
  | case2 a => simp [dedupAdjacent]
  | case3 a b rest heq ih =>
    rw [dedupAdjacent, if_pos heq]
    simp only [List.length_cons] at *
    omega
  | case4 a b rest heq ih =>
    rw [dedupAdjacent, if_neg heq]
    simp only [List.length_cons] at *
    omega

lemma dedupAdjacent_pairwise : ∀ l : List ClusterNode,
    l.Pairwise nodeLe →
    (dedupAdjacent l).Pairwise (fun a b => ClusterNode.compare a b = true) := by
  intro l
  induction l using dedupAdjacent.induct with
  | case1 => intro; simp [dedupAdjacent]
  | case2 a => intro; simp [dedupAdjacent]
  | case3 a b rest heq ih =>
    intro hp
    rw [dedupAdjacent, if_pos heq]
    exact ih (hp.sublist ((List.sublist_cons_self b rest).cons₂ a))
  | case4 a b rest heq ih =>
    intro hp
    rw [dedupAdjacent, if_neg heq]
    have hrest := hp.sublist (List.sublist_cons_self a (b :: rest))
    have hhead := List.pairwise_cons.mp hp
    refine List.pairwise_cons.mpr ⟨?_, ih hrest⟩
    intro x hx
    have hab : ClusterNode.compare a b = true :=
      compare_of_not_compare_of_not_equal (hhead.1 b (List.mem_cons_self b rest))
        (Bool.eq_false_iff.mpr heq)
    rcases List.mem_cons.mp (dedupAdjacent_subset _ hx) with rfl | hxr
    · exact hab
    · exact compare_of_compare_of_not_compare hab
        ((List.pairwise_cons.mp hrest).1 x hxr)

/-! ### The expansion step -/

lemma expandBlocks_used_mono : ∀ (hits : List OverlapHit) (s : String)
    (u : List Int) (q : List ClusterNode) (k : Int), k ∈ u →
    k ∈ (expandBlocks hits s u q).1 := by
  intro hits
  induction hits with
  | nil => intro s u q k hk; exact hk
  | cons hit rest ih =>
    intro s u q k hk
    rw [expandBlocks]
    by_cases hmem : hit.canonicalInterval.lower ∈ u
    · rw [if_pos hmem]; exact ih s u q k hk
    · rw [if_neg hmem]
      exact ih s _ _ k (mem_insertKey_of_mem hk)

/-- Full characterization of one expansion step: the queue is extended by a
block of fresh nodes whose keys were unvisited, are pairwise distinct, end up
registered in the visited set, and each originates from one of the hits. -/
lemma expandBlocks_spec : ∀ (hits : List OverlapHit) (s : String)
    (u : List Int) (q : List ClusterNode),
    ∃ fresh : List ClusterNode,
      (expandBlocks hits s u q).2 = q ++ fresh ∧
      (∀ n ∈ fresh, n.interval.lower ∉ u) ∧
      (fresh.map fun n => n.interval.lower).Nodup ∧
      (∀ n ∈ fresh, n.interval.lower ∈ (expandBlocks hits s u q).1) ∧
      (∀ n ∈ fresh, ∃ hit ∈ hits, n.sequence = hit.fullString s ∧
        n.interval = hit.canonicalInterval ∧
        n.isReverseInterval = hit.isTargetRev) := by
  intro hits
  induction hits with
  | nil =>
    intro s u q
    exact ⟨[], by simp [expandBlocks]⟩
  | cons hit rest ih =>
    intro s u q
    by_cases hmem : hit.canonicalInterval.lower ∈ u
    · obtain ⟨fresh, hq, hnotu, hnd, hreg, hsrc⟩ := ih s u q
      refine ⟨fresh, ?_, hnotu, hnd, ?_, ?_⟩
      · rw [expandBlocks, if_pos hmem]; exact hq
      · rw [expandBlocks, if_pos hmem]; exact hreg
      · intro n hn
        obtain ⟨h, hh, hprops⟩ := hsrc n hn
        exact ⟨h, List.mem_cons_of_mem _ hh, hprops⟩
    · set newNode : ClusterNode :=
        { sequence := hit.fullString s, interval := hit.canonicalInterval,
          isReverseInterval := hit.isTargetRev } with hnew
      obtain ⟨fresh, hq, hnotu, hnd, hreg, hsrc⟩ :=
        ih s (insertKey hit.canonicalInterval.lower u) (q ++ [newNode])
      have hstep : expandBlocks (hit :: rest) s u q =
          expandBlocks rest s (insertKey hit.canonicalInterval.lower u)
            (q ++ [newNode]) := by
        rw [expandBlocks, if_neg hmem]
      refine ⟨newNode :: fresh, ?_, ?_, ?_, ?_, ?_⟩
      · rw [hstep, hq, List.append_assoc]; rfl
      · intro n hn
        rcases List.mem_cons.mp hn with rfl | hn'
        · exact hmem
        · intro hu
          exact hnotu n hn' (mem_insertKey_of_mem hu)
      · refine List.nodup_cons.mpr ⟨?_, hnd⟩
        intro hk
        obtain ⟨n, hn, hkey⟩ := List.mem_map.mp hk
        exact hnotu n hn (hkey ▸ mem_insertKey_self _ _)
      · intro n hn
        rcases List.mem_cons.mp hn with rfl | hn'
        · rw [hstep]
          exact expandBlocks_used_mono rest s _ _ _ (mem_insertKey_self _ _)
        · rw [hstep]; exact hreg n hn'
      · intro n hn
        rcases List.mem_cons.mp hn with rfl | hn'
        · exact ⟨hit, List.mem_cons_self _ _, rfl, rfl, rfl⟩
        · obtain ⟨h, hh, hprops⟩ := hsrc n hn'
          exact ⟨h, List.mem_cons_of_mem _ hh, hprops⟩

/-! ### Unfolding equations and invariants of the main loop -/

lemma runLoop_eq_nil {o : OverlapOracle} {mo : Int} {mx : Nat}
    {st : ReadCluster} (h : st.queue = []) : runLoop o mo mx st = st := by
  rw [runLoop.eq_def]
  split
  · rfl
  · simp_all

lemma runLoop_eq_cons {o : OverlapOracle} {mo : Int} {mx : Nat}
    {st : ReadCluster} {node : ClusterNode} {rest : List ClusterNode}
    (h : st.queue = node :: rest) :
    runLoop o mo mx st =
      if st.queue.length + st.outCluster.length > mx then
        { st with queue := [], outCluster := [] }
      else
        runLoop o mo mx
          { usedIndex := (expandBlocks (o.overlaps node.sequence mo)
              node.sequence st.usedIndex rest).1,
            queue := (expandBlocks (o.overlaps node.sequence mo)
              node.sequence st.usedIndex rest).2,
            outCluster := st.outCluster ++ [node] } := by
  rw [runLoop.eq_def]
  split
  · simp_all
  · rename_i node' rest' h'
    rw [h] at h'
    obtain ⟨rfl, rfl⟩ : node = node' ∧ rest = rest' := by
      injection h' with h1 h2; exact ⟨h1, h2⟩
    rfl

lemma runLoop_queue_nil (o : OverlapOracle) (mo : Int) (mx : Nat) :
    ∀ st : ReadCluster, (runLoop o mo mx st).queue = [] := by
  intro st
  induction st using runLoop.induct o mo mx with
  | case1 x hx => rw [runLoop_eq_nil hx]; exact hx
  | case2 x node rest hx hb => rw [runLoop_eq_cons hx, if_pos hb]
  | case3 x node rest hx hb expanded ih => rw [runLoop_eq_cons hx, if_neg hb]; exact ih

lemma runLoop_out_prefix_or_nil (o : OverlapOracle) (mo : Int) (mx : Nat) :
    ∀ st : ReadCluster,
      st.outCluster <+: (runLoop o mo mx st).outCluster ∨
      (runLoop o mo mx st).outCluster = [] := by
  intro st
  induction st using runLoop.induct o mo mx with
  | case1 x hx => rw [runLoop_eq_nil hx]; exact Or.inl (List.prefix_refl _)
  | case2 x node rest hx hb => rw [runLoop_eq_cons hx, if_pos hb]; exact Or.inr rfl
  | case3 x node rest hx hb expanded ih =>
    rw [runLoop_eq_cons hx, if_neg hb]
    rcases ih with h | h
    · exact Or.inl ((List.prefix_append _ _).trans h)
    · exact Or.inr h

lemma runLoop_out_length_le (o : OverlapOracle) (mo : Int) (mx : Nat) :
    ∀ st : ReadCluster, st.outCluster.length ≤ mx →
      (runLoop o mo mx st).outCluster.length ≤ mx := by
  intro st
  induction st using runLoop.induct o mo mx with
  | case1 x hx => intro h; rw [runLoop_eq_nil hx]; exact h
  | case2 x node rest hx hb => intro h; rw [runLoop_eq_cons hx, if_pos hb]; simp
  | case3 x node rest hx hb expanded ih =>
    intro h
    rw [runLoop_eq_cons hx, if_neg hb]
    apply ih
    have hlen : x.queue.length = rest.length + 1 := by rw [hx]; simp
    show (x.outCluster ++ [node]).length ≤ mx
    simp only [List.length_append, List.length_cons, List.length_nil]
    omega

/-- If the queue holds pairwise-distinct identity keys all registered in the
visited set, every key admitted to the output during the loop is admitted at
most once. -/
lemma runLoop_keys_nodup (o : OverlapOracle) (mo : Int) (mx : Nat) :
    ∀ st : ReadCluster,
      (((st.outCluster ++ st.queue).map fun n => n.interval.lower).Nodup) →
      (∀ n ∈ st.outCluster ++ st.queue, n.interval.lower ∈ st.usedIndex) →
      (((runLoop o mo mx st).outCluster).map fun n => n.interval.lower).Nodup := by
  intro st
  induction st using runLoop.induct o mo mx with
  | case1 x hx =>
    intro h1 h2
    rw [runLoop_eq_nil hx]
    exact h1.sublist ((List.sublist_append_left _ _).map _)
  | case2 x node rest hx hb =>
    intro h1 h2
    rw [runLoop_eq_cons hx, if_pos hb]
    simp
  | case3 x node rest hx hb expanded ih =>
    intro h1 h2
    rw [runLoop_eq_cons hx, if_neg hb]
    rw [hx] at h1 h2
    obtain ⟨fresh, hq2, hnotu, hnd, hreg, _⟩ :=
      expandBlocks_spec (o.overlaps node.sequence mo) node.sequence
        x.usedIndex rest
    apply ih
    · show (((x.outCluster ++ [node]) ++ (expandBlocks (o.overlaps node.sequence mo)
        node.sequence x.usedIndex rest).2).map fun n => n.interval.lower).Nodup
      rw [hq2]
      have hlist : (x.outCluster ++ [node]) ++ (rest ++ fresh) =
          (x.outCluster ++ (node :: rest)) ++ fresh := by
        simp
      rw [hlist, List.map_append]
      refine List.Nodup.append h1 hnd ?_
      intro a ha haf
      obtain ⟨n, hn, hkey⟩ := List.mem_map.mp ha
      obtain ⟨n', hn', hkey'⟩ := List.mem_map.mp haf
      exact hnotu n' hn' (hkey' ▸ hkey ▸ h2 n hn)
    · show ∀ n ∈ (x.outCluster ++ [node]) ++ (expandBlocks (o.overlaps node.sequence mo)
        node.sequence x.usedIndex rest).2,
        n.interval.lower ∈ (expandBlocks (o.overlaps node.sequence mo)
          node.sequence x.usedIndex rest).1
      rw [hq2]
      intro n hn
      have hlist : (x.outCluster ++ [node]) ++ (rest ++ fresh) =
          (x.outCluster ++ (node :: rest)) ++ fresh := by
        simp
      rw [hlist] at hn
      rcases List.mem_append.mp hn with hold | hfr
      · exact expandBlocks_used_mono _ _ _ _ _ (h2 n hold)
      · exact hreg n hfr

/-- If the oracle only ever reports overlap hits with valid canonical
intervals, the loop preserves validity of every admitted node. -/
lemma runLoop_valid (o : OverlapOracle) (mo : Int) (mx : Nat)
    (hhits : ∀ s m hit, hit ∈ o.overlaps s m →
      hit.canonicalInterval.isValid = true) :
    ∀ st : ReadCluster,
      (∀ n ∈ st.outCluster ++ st.queue, n.interval.isValid = true) →
      ∀ n ∈ (runLoop o mo mx st).outCluster, n.interval.isValid = true := by
  intro st
  induction st using runLoop.induct o mo mx with
  | case1 x hx =>
    intro h n hn
    rw [runLoop_eq_nil hx] at hn
    exact h n (List.mem_append.mpr (Or.inl hn))
  | case2 x node rest hx hb =>
    intro h n hn
    rw [runLoop_eq_cons hx, if_pos hb] at hn
    simp at hn
  | case3 x node rest hx hb expanded ih =>
    intro h n hn
    rw [runLoop_eq_cons hx, if_neg hb] at hn
    rw [hx] at h
    obtain ⟨fresh, hq2, _, _, _, hsrc⟩ :=
      expandBlocks_spec (o.overlaps node.sequence mo) node.sequence
        x.usedIndex rest
    refine ih ?_ n hn
    show ∀ m ∈ (x.outCluster ++ [node]) ++ (expandBlocks (o.overlaps node.sequence mo)
      node.sequence x.usedIndex rest).2, m.interval.isValid = true
    rw [hq2]
    intro m hm
    have hlist : (x.outCluster ++ [node]) ++ (rest ++ fresh) =
        (x.outCluster ++ (node :: rest)) ++ fresh := by
      simp
    rw [hlist] at hm
    rcases List.mem_append.mp hm with hold | hfr
    · exact h m hold
    · obtain ⟨hit, hhit, _, hint, _⟩ := hsrc m hfr
      rw [hint]
      exact hhits _ _ _ hhit

/-! ### Seeding and driver-call sequences -/

lemma addSeed_ok_outCluster {o : OverlapOracle} {st : ReadCluster} {s : String}
    {b : Bool} {st' : ReadCluster} {n : ClusterNode}
    (h : addSeed o st s b = .ok st' n) : st'.outCluster = st.outCluster := by
  unfold addSeed at h
  by_cases h1 : o.isSubstring s
  · rw [if_pos h1] at h
    cases b
    · rw [if_neg (by simp)] at h
      injection h with h' _
      rw [← h']
    · rw [if_pos rfl] at h
      exact absurd h (by simp)
  · rw [if_neg h1] at h
    by_cases h2 : b = true ∧ ¬ (o.findIntervalDollar s).isValid = true
    · rw [if_pos (by simpa using h2)] at h
      exact absurd h (by simp)
    · rw [if_neg (by simpa using h2)] at h
      injection h with h' _
      rw [← h']

lemma addSeed_true_ok {o : OverlapOracle} {st : ReadCluster} {s : String}
    {st' : ReadCluster} {n : ClusterNode}
    (h : addSeed o st s true = .ok st' n) :
    st' = { st with
        usedIndex := insertKey (o.findIntervalDollar s).lower st.usedIndex,
        queue := st.queue ++
          [{ sequence := s, interval := o.findIntervalDollar s,
             isReverseInterval := false }] } ∧
    (o.findIntervalDollar s).isValid = true := by
  unfold addSeed at h
  by_cases h1 : o.isSubstring s
  · rw [if_pos h1, if_pos rfl] at h
    exact absurd h (by simp)
  · rw [if_neg h1] at h
    by_cases h2 : (o.findIntervalDollar s).isValid = true
    · rw [if_neg (by simp [h2])] at h
      injection h with h' _
      exact ⟨h'.symm, h2⟩
    · rw [if_pos (by simp [h2])] at h
      exact absurd h (by simp)

lemma execOps_seeds_outCluster {o : OverlapOracle} {mo : Int} :
    ∀ (ops : List Op), (∀ op ∈ ops, op.isSeed = true) →
      ∀ st st' : ReadCluster, execOps o mo ops st = some st' →
        st'.outCluster = st.outCluster := by
  intro ops
  induction ops with
  | nil =>
    intro _ st st' h
    injection h with h
    rw [h]
  | cons op rest ih =>
    intro hseeds st st' h
    cases op with
    | seed s b =>
      rw [execOps] at h
      cases hadd : addSeed o st s b with
      | ok st₁ n =>
        rw [hadd] at h
        rw [ih (fun op hop => hseeds op (List.mem_cons_of_mem _ hop)) st₁ st' h]
        exact addSeed_ok_outCluster hadd
      | procExit c =>
        rw [hadd] at h
        exact absurd h (by simp)
    | run mx =>
      exact absurd (hseeds _ (List.mem_cons_self _ _)) (by simp [Op.isSeed])

lemma execOps_valid {o : OverlapOracle} {mo : Int}
    (hhits : ∀ s m hit, hit ∈ o.overlaps s m →
      hit.canonicalInterval.isValid = true) :
    ∀ (ops : List Op), (∀ op ∈ ops, op.seedChecked = true) →
      ∀ st st' : ReadCluster,
        (∀ n ∈ st.outCluster ++ st.queue, n.interval.isValid = true) →
        execOps o mo ops st = some st' →
        ∀ n ∈ st'.outCluster ++ st'.queue, n.interval.isValid = true := by
  intro ops
  induction ops with
  | nil =>
    intro _ st st' hval h
    injection h with h
    rw [← h]
    exact hval
  | cons op rest ih =>
    intro hchecked st st' hval h
    cases op with
    | seed s b =>
      have hb : b = true := hchecked _ (List.mem_cons_self _ _)
      subst hb
      rw [execOps] at h
      cases hadd : addSeed o st s true with
      | ok st₁ n =>
        rw [hadd] at h
        obtain ⟨hst₁, hvalid⟩ := addSeed_true_ok hadd
        refine ih (fun op hop => hchecked op (List.mem_cons_of_mem _ hop))
          st₁ st' ?_ h
        rw [hst₁]
        intro m hm
        show m.interval.isValid = true
        rcases List.mem_append.mp hm with hmo | hmq
        · exact hval m (List.mem_append.mpr (Or.inl hmo))
        · rcases List.mem_append.mp hmq with hmq' | hmnew
          · exact hval m (List.mem_append.mpr (Or.inr hmq'))
          · rcases List.mem_singleton.mp hmnew with rfl
            exact hvalid
      | procExit c =>
        rw [hadd] at h
        exact absurd h (by simp)
    | run mx =>
      rw [execOps] at h
      refine ih (fun op hop => hchecked op (List.mem_cons_of_mem _ hop))
        (runLoop o mo mx st) st' ?_ h
      intro m hm
      rcases List.mem_append.mp hm with hmo | hmq
      · exact runLoop_valid o mo mx hhits st hval m hmo
      · rw [runLoop_queue_nil o mo mx st] at hmq
        simp at hmq

lemma getOutput_subset (st : ReadCluster) : getOutput st ⊆ st.outCluster :=
  fun x hx =>
    (List.mem_insertionSort nodeLe).mp (dedupAdjacent_subset _ hx)

lemma getOutput_length_le (st : ReadCluster) :
    (getOutput st).length ≤ st.outCluster.length := by
  unfold getOutput
  calc (dedupAdjacent (List.insertionSort nodeLe st.outCluster)).length
      ≤ (List.insertionSort nodeLe st.outCluster).length :=
        dedupAdjacent_length_le _
    _ = st.outCluster.length := List.length_insertionSort _ _

/-! ### Claim theorems -/

/-- Claim C1, counterexample: on a bound-exceeding state the abort empties
the pending queue and the output but leaves the visited set `m_usedIndex`
untouched (`[4]`, not cleared), contradicting the claim that the visited set
is cleared. -/
theorem c1_visited_not_cleared :
    runLoop seedOracle 3 0
        ⟨[4], [⟨"ACGT", ⟨4, 4⟩, false⟩], []⟩ =
      ⟨[4], [], []⟩ ∧
    ([4] : List Int) ≠ [] := by
  constructor
  · rw [runLoop_eq_cons rfl, if_pos (by simp)]
  · simp

/-- Claim C1 (amended): whenever the pending-queue size plus the output size
exceeds `maxSize` at the start of a loop iteration, the run aborts: the
pending queue and the accumulated output are emptied and the loop returns
immediately, so the final output is the empty list; the visited set is
retained unchanged (it is not cleared). -/
theorem c1_abort_all_or_nothing (o : OverlapOracle) (mo : Int) (mx : Nat)
    (st : ReadCluster) (hne : st.queue ≠ [])
    (hb : st.queue.length + st.outCluster.length > mx) :
    runLoop o mo mx st =
      { usedIndex := st.usedIndex, queue := [], outCluster := [] } ∧
    getOutput (runLoop o mo mx st) = [] := by
  obtain ⟨node, rest, hq⟩ := List.exists_cons_of_ne_nil hne
  refine ⟨?_, ?_⟩ <;> rw [runLoop_eq_cons hq, if_pos hb]
  simp [getOutput, dedupAdjacent]

/-- Claim C1 witness: a concrete bound-exceeding state at `maxSize = 0`. -/
theorem c1_abort_all_or_nothing_witness :
    runLoop seedOracle 5 0 ⟨[4], [⟨"ACGT", ⟨4, 4⟩, false⟩], []⟩ =
      ⟨[4], [], []⟩ ∧
    getOutput (runLoop seedOracle 5 0 ⟨[4], [⟨"ACGT", ⟨4, 4⟩, false⟩], []⟩) = [] :=
  c1_abort_all_or_nothing seedOracle 5 0
    ⟨[4], [⟨"ACGT", ⟨4, 4⟩, false⟩], []⟩ (by simp) (by simp)

/-- Claim C2: for every builder state (hence after every sequence of
`addSeed` and `run` calls), `getOutput` is strictly ascending by identity
interval — `compare` holds between every earlier and later entry — and in
particular no two entries have equal identity intervals. -/
theorem c2_output_sorted_unique (st : ReadCluster) :
    (getOutput st).Pairwise (fun a b => ClusterNode.compare a b = true) ∧
    (getOutput st).Pairwise (fun a b => ClusterNode.equal a b = false) := by
  have hs := dedupAdjacent_pairwise (List.insertionSort nodeLe st.outCluster)
    (List.sorted_insertionSort nodeLe st.outCluster)
  exact ⟨hs, hs.imp equal_false_of_compare⟩

/-- Claim C3, counterexample: seeding the same sequence twice enqueues its
identity key `4` twice — `addSeed` registers and enqueues unconditionally,
without consulting the visited set — so a key can be pushed more than once
across the lifetime of the builder. -/
theorem c3_double_seed_enqueues_twice :
    execOps seedOracle 3 [.seed "ACGT" true, .seed "ACGT" true]
        ReadCluster.init =
      some ⟨[4], [⟨"ACGT", ⟨4, 4⟩, false⟩, ⟨"ACGT", ⟨4, 4⟩, false⟩], []⟩ ∧
    ¬ (([4, 4] : List Int).Nodup) := by
  constructor
  · rfl
  · simp

/-- Claim C3 (amended): during `run` a given identity key is enqueued at
most once (hits are enqueued only when unvisited and are immediately marked
visited), so from any state whose queued and admitted keys are pairwise
distinct and registered in the visited set, `run` admits each identity key
to the output at most once; `addSeed` however enqueues unconditionally, so
the at-most-once property across the whole lifetime requires that no two
seeds share an identity key. -/
theorem c3_run_enqueues_key_at_most_once (o : OverlapOracle) (mo : Int)
    (mx : Nat) (st : ReadCluster)
    (h1 : ((st.outCluster ++ st.queue).map fun n => n.interval.lower).Nodup)
    (h2 : ∀ n ∈ st.outCluster ++ st.queue, n.interval.lower ∈ st.usedIndex) :
    (((runLoop o mo mx st).outCluster).map fun n => n.interval.lower).Nodup :=
  runLoop_keys_nodup o mo mx st h1 h2

/-- Claim C3 witness: a singleton seeded queue with its key registered. -/
theorem c3_run_enqueues_key_at_most_once_witness :
    (((runLoop seedOracle 3 10
        ⟨[4], [⟨"ACGT", ⟨4, 4⟩, false⟩], []⟩).outCluster).map
      fun n => n.interval.lower).Nodup :=
  c3_run_enqueues_key_at_most_once seedOracle 3 10
    ⟨[4], [⟨"ACGT", ⟨4, 4⟩, false⟩], []⟩ (by simp) (by simp)

/-- Claim C4, counterexample: `addSeed` with `requireIndexed = false` on a
non-substring sequence absent from the index enqueues a node with the
invalid narrowed interval `[5, 2]`, and a subsequent `run` admits it, so the
output holds a node whose identity interval is invalid. -/
theorem c4_invalid_seed_reaches_output :
    execOps absentOracle 3 [.seed "ACGT" false, .run 10] ReadCluster.init =
      some ⟨[5], [], [⟨"ACGT", ⟨5, 2⟩, false⟩]⟩ ∧
    ((getOutput ⟨[5], [], [⟨"ACGT", ⟨5, 2⟩, false⟩]⟩).all
      fun n => n.interval.isValid) = false := by
  have h1 : addSeed absentOracle ReadCluster.init "ACGT" false =
      .ok ⟨[5], [⟨"ACGT", ⟨5, 2⟩, false⟩], []⟩ ⟨"ACGT", ⟨5, 2⟩, false⟩ := rfl
  have h2 : runLoop absentOracle 3 10
      ⟨[5], [⟨"ACGT", ⟨5, 2⟩, false⟩], []⟩ =
      ⟨[5], [], [⟨"ACGT", ⟨5, 2⟩, false⟩]⟩ := by
    rw [runLoop_eq_cons rfl, if_neg (by simp)]
    exact runLoop_eq_nil rfl
  constructor
  · simp only [execOps, h1, h2]
  · simp [getOutput, dedupAdjacent, BWTInterval.isValid]

/-- Claim C4 (amended): provided every seed is added with
`requireIndexed = true` and the oracle reports only overlap hits with valid
canonical intervals, every node in the output list (and in the normalized
`getOutput` list) has a valid identity interval, after any such sequence of
`addSeed` and `run` calls. -/
theorem c4_output_intervals_valid (o : OverlapOracle) (mo : Int)
    (hhits : ∀ s m hit, hit ∈ o.overlaps s m →
      hit.canonicalInterval.isValid = true)
    (ops : List Op) (hops : ∀ op ∈ ops, op.seedChecked = true)
    (st : ReadCluster) (hexec : execOps o mo ops ReadCluster.init = some st) :
    (∀ n ∈ st.outCluster, n.interval.isValid = true) ∧
    (∀ n ∈ getOutput st, n.interval.isValid = true) := by
  have h := execOps_valid hhits ops hops ReadCluster.init st
    (by intro n hn; simp [ReadCluster.init] at hn) hexec
  refine ⟨fun n hn => h n (List.mem_append.mpr (Or.inl hn)), fun n hn => ?_⟩
  exact h n (List.mem_append.mpr (Or.inl (getOutput_subset st hn)))

/-- Claim C4 witness: one checked seed followed by a bounded run. -/
theorem c4_output_intervals_valid_witness :
    (∀ n ∈ (⟨[4], [], [⟨"ACGT", ⟨4, 4⟩, false⟩]⟩ : ReadCluster).outCluster,
      n.interval.isValid = true) ∧
    (∀ n ∈ getOutput ⟨[4], [], [⟨"ACGT", ⟨4, 4⟩, false⟩]⟩,
      n.interval.isValid = true) :=
  c4_output_intervals_valid seedOracle 3
    (by intro s m hit hh; simp [seedOracle] at hh)
    [.seed "ACGT" true, .run 10] (by simp [Op.seedChecked])
    ⟨[4], [], [⟨"ACGT", ⟨4, 4⟩, false⟩]⟩
    (by
      have ha : addSeed seedOracle ReadCluster.init "ACGT" true =
          .ok ⟨[4], [⟨"ACGT", ⟨4, 4⟩, false⟩], []⟩
            ⟨"ACGT", ⟨4, 4⟩, false⟩ := rfl
      have hr : runLoop seedOracle 3 10
          ⟨[4], [⟨"ACGT", ⟨4, 4⟩, false⟩], []⟩ =
          ⟨[4], [], [⟨"ACGT", ⟨4, 4⟩, false⟩]⟩ := by
        rw [runLoop_eq_cons rfl, if_neg (by simp)]
        exact runLoop_eq_nil rfl
      simp only [execOps, ha, hr])

/-- Claim C5: seeding a substring sequence with `requireIndexed = false`
returns the sentinel node with the explicitly invalid interval `[0, -1]` and
leaves the builder state — visited set and pending queue — exactly as it
was. -/
theorem c5_substring_seed_sentinel (o : OverlapOracle) (st : ReadCluster)
    (s : String) (h : o.isSubstring s = true) :
    addSeed o st s false =
      .ok st { sequence := "", interval := ⟨0, -1⟩,
               isReverseInterval := false } ∧
    BWTInterval.isValid ⟨0, -1⟩ = false := by
  refine ⟨?_, by decide⟩
  unfold addSeed
  rw [if_pos h]
  simp

/-- Claim C5 witness: the substring oracle on an arbitrary state. -/
theorem c5_substring_seed_sentinel_witness :
    addSeed substringOracle ⟨[9], [], []⟩ "ACGT" false =
      .ok ⟨[9], [], []⟩ { sequence := "", interval := ⟨0, -1⟩,
                          isReverseInterval := false } ∧
    BWTInterval.isValid ⟨0, -1⟩ = false :=
  c5_substring_seed_sentinel substringOracle ⟨[9], [], []⟩ "ACGT" rfl

/-- Claim C6, counterexample: both fatal seeding conditions — a substring
seed with `requireIndexed = true`, and a checked seed whose narrowed
interval is empty — produce the embedded process-termination outcome
`exit(1)`, not an error result distinguishing `FatalPrecondition` from
normal completion. -/
theorem c6_fatal_seed_is_process_exit :
    addSeed substringOracle ReadCluster.init "ACGT" true =
      .procExit 1 ∧
    addSeed absentOracle ReadCluster.init "ACGT" true = .procExit 1 :=
  ⟨rfl, rfl⟩

/-- Claim C6 (amended): the two fatal seeding conditions abort by
terminating the process with exit status `1` (the C++ source calls
`exit(1)`/`exit(EXIT_FAILURE)`), rather than returning an explicit error
result to the caller. -/
theorem c6_fatal_seed_exits (o : OverlapOracle) (st : ReadCluster)
    (s : String) :
    (o.isSubstring s = true → addSeed o st s true = .procExit 1) ∧
    (o.isSubstring s = false → (o.findIntervalDollar s).isValid = false →
      addSeed o st s true = .procExit 1) := by
  constructor
  · intro h
    unfold addSeed
    rw [if_pos h]
    simp
  · intro h1 h2
    unfold addSeed
    rw [if_neg (by simp [h1])]
    rw [if_pos (by simp [h2])]

/-- Claim C6 witness: both fatal conditions at concrete oracles. -/
theorem c6_fatal_seed_exits_witness :
    (substringOracle.isSubstring "ACGT" = true ∧
      addSeed substringOracle ⟨[3], [], []⟩ "ACGT" true = .procExit 1) ∧
    (absentOracle.isSubstring "ACGT" = false ∧
      (absentOracle.findIntervalDollar "ACGT").isValid = false ∧
      addSeed absentOracle ⟨[3], [], []⟩ "ACGT" true = .procExit 1) :=
  ⟨⟨rfl, (c6_fatal_seed_exits substringOracle ⟨[3], [], []⟩ "ACGT").1 rfl⟩,
   ⟨rfl, rfl,
    (c6_fatal_seed_exits absentOracle ⟨[3], [], []⟩ "ACGT").2 rfl rfl⟩⟩

/-- Claim C7: in an expansion step, a hit whose canonical identity key is
already in the visited set is discarded (the step is unchanged by dropping
it), and the nodes enqueued by a step all have keys that were not in the
visited set at the start of the step and are pairwise distinct — so each
node enqueued was unvisited at its enqueue time, and a cycle back to a
visited node never re-enqueues it. -/
theorem c7_no_revisit_enqueue (hit : OverlapHit) (hits rest : List OverlapHit)
    (s : String) (u : List Int) (q : List ClusterNode) :
    (hit.canonicalInterval.lower ∈ u →
      expandBlocks (hit :: rest) s u q = expandBlocks rest s u q) ∧
    ∃ fresh : List ClusterNode,
      (expandBlocks hits s u q).2 = q ++ fresh ∧
      (∀ n ∈ fresh, n.interval.lower ∉ u) ∧
      (fresh.map fun n => n.interval.lower).Nodup := by
  constructor
  · intro hmem
    rw [expandBlocks]
    simp only [if_pos hmem]
  · obtain ⟨fresh, hq1, hq2, hq3, _, _⟩ := expandBlocks_spec hits s u q
    exact ⟨fresh, hq1, hq2, hq3⟩

/-- Claim C7 witness: a hit back to the already-visited key `7`. -/
theorem c7_no_revisit_enqueue_witness :
    ((7 : Int) ∈ ([7] : List Int) ∧
      expandBlocks [hitSeven] "A" [7] [] = expandBlocks [] "A" [7] []) ∧
    ∃ fresh : List ClusterNode,
      (expandBlocks [hitSeven] "A" [7] []).2 = [] ++ fresh ∧
      (∀ n ∈ fresh, n.interval.lower ∉ ([7] : List Int)) ∧
      (fresh.map fun n => n.interval.lower).Nodup :=
  ⟨⟨by simp, (c7_no_revisit_enqueue hitSeven [hitSeven] [] "A" [7] []).1
      (by simp [hitSeven])⟩,
   (c7_no_revisit_enqueue hitSeven [hitSeven] [] "A" [7] []).2⟩

/-- Claim C8: `run` always terminates (`runLoop` is a total function, whose
termination is proved by the bounded growth of the output), and its only
exit paths are queue exhaustion or the size-bound abort: the final queue is
always empty, and the final output either extends the prior output (normal
completion, possibly with the queue already empty) or is the empty aborted
result — there is no other exit path. -/
theorem c8_terminates_two_exit_paths (o : OverlapOracle) (mo : Int)
    (mx : Nat) (st : ReadCluster) :
    (runLoop o mo mx st).queue = [] ∧
    (st.outCluster <+: (runLoop o mo mx st).outCluster ∨
      (runLoop o mo mx st).outCluster = []) :=
  ⟨runLoop_queue_nil o mo mx st, runLoop_out_prefix_or_nil o mo mx st⟩

/-- Claim C9: the spec's worked example at `maxSize = 1` — the seed occupies
interval `[4, 4]`, the oracle reports one hit at `[7, 7]`, and `run(1)`
aborts on its second iteration (one node admitted plus one pending exceeds
the bound), so the output is empty. -/
theorem c9_worked_example_bound_one :
    addSeed exampleOracle ReadCluster.init "ACGTACGT" true =
      .ok ⟨[4], [⟨"ACGTACGT", ⟨4, 4⟩, false⟩], []⟩
        ⟨"ACGTACGT", ⟨4, 4⟩, false⟩ ∧
    (runLoop exampleOracle 3 1
      ⟨[4], [⟨"ACGTACGT", ⟨4, 4⟩, false⟩], []⟩).outCluster = [] ∧
    getOutput (runLoop exampleOracle 3 1
      ⟨[4], [⟨"ACGTACGT", ⟨4, 4⟩, false⟩], []⟩) = [] := by
  refine ⟨rfl, ?_, ?_⟩ <;>
    simp [runLoop, expandBlocks, getOutput, exampleOracle, hitSeven,
      insertKey, dedupAdjacent]

/-- Claim C10: in the documented lifecycle — a builder populated only by
seed calls, then consumed by one `run(maxSize)` — the accumulated output
after `run` holds at most `maxSize` nodes, and hence so does the list
returned by `getOutput`. -/
theorem c10_output_bounded (o : OverlapOracle) (mo : Int) (ops : List Op)
    (hseeds : ∀ op ∈ ops, op.isSeed = true) (st : ReadCluster)
    (hexec : execOps o mo ops ReadCluster.init = some st) (mx : Nat) :
    (runLoop o mo mx st).outCluster.length ≤ mx ∧
    (getOutput (runLoop o mo mx st)).length ≤ mx := by
  have hout : st.outCluster = [] := by
    rw [execOps_seeds_outCluster ops hseeds ReadCluster.init st hexec]
    rfl
  have h1 := runLoop_out_length_le o mo mx st (by rw [hout]; simp)
  exact ⟨h1, le_trans (getOutput_length_le _) h1⟩

/-- Claim C10 witness: one seed, then a run bounded at zero. -/
theorem c10_output_bounded_witness :
    (runLoop seedOracle 3 0
      ⟨[4], [⟨"ACGT", ⟨4, 4⟩, false⟩], []⟩).outCluster.length ≤ 0 ∧
    (getOutput (runLoop seedOracle 3 0
      ⟨[4], [⟨"ACGT", ⟨4, 4⟩, false⟩], []⟩)).length ≤ 0 :=
  c10_output_bounded seedOracle 3 [.seed "ACGT" true]
    (by simp [Op.isSeed]) ⟨[4], [⟨"ACGT", ⟨4, 4⟩, false⟩], []⟩ rfl 0

end ReadClusterModel
